import Mathlib

/-!
PixelArtScale: verification of the pixel-array codec and batch pipeline.

Shallow embedding of the two source files of the repository:

* `src/pypng/pnglpng.py` — the codec joint between the PNG library and
  3-D nested lists (`png2list`, `list2png`, `create_image`);
* `src/ScaleNxGUI.py` — the single-file and batch drivers
  (`FileNx`, `scale_file_png`, `scale_file_pnm`, `FolderNx`).

Python dicts carrying image metadata are embedded as a record `Info` with one
optional field per key the code reads or writes, plus a pass-through list for
the remaining ancillary keys.  Pixel data is `List (List (List Nat))`
(rows of pixels of channel samples), exactly the `list_3d` shape of the code.
The external PNG reader/writer and the external rescalers are out of scope
(the spec treats them as collaborators); the codec is modelled at their
boundary: a decode receives the reader's `(X, Y, rows)`, an encode returns
the metadata record and the row sequence handed to the writer.
-/

namespace PixelArtScale

/-- `list_3d` of the code: Y rows, each X pixels, each Z channel samples. -/
abbrev PixelArray := List (List (List Nat))

/-- Embedding of the metadata dictionary `info` used by `pnglpng.py` and
`ScaleNxGUI.py`.  Each key the code touches becomes an optional field
(`none` = key absent); `others` carries untouched ancillary keys. -/
structure Info where
  size : Option (Nat × Nat) := none
  planes : Option Nat := none
  bitdepth : Option Nat := none
  alpha : Option Bool := none
  greyscale : Option Bool := none
  palette : Option (List (Nat × Nat × Nat)) := none
  background : Option (List Nat) := none
  physical : Option (Nat × Nat × Bool) := none
  compression : Option Nat := none
  others : List (String × String) := []
  deriving Repr, DecidableEq

/-- Result tuple of `png2list` (src/pypng/pnglpng.py, line 126):
`(X, Y, Z, maxcolors, list_3d, info)`. -/
structure DecodeResult where
  X : Nat
  Y : Nat
  Z : Nat
  maxcolors : Nat
  list_3d : PixelArray
  info : Info
  deriving Repr, DecidableEq

/-- The three `if info['bitdepth'] == …` assignments of `png2list`
(src/pypng/pnglpng.py, lines 108–113).  The Python code leaves `maxcolors`
unassigned (a NameError on use) for any other bit depth; that failure is
`none`. -/
def maxcolorsOfBitdepth (bitdepth : Nat) : Option Nat :=
  if bitdepth = 1 then some 1
  else if bitdepth = 8 then some 255
  else if bitdepth = 16 then some 65535
  else none

/-- `png2list` (src/pypng/pnglpng.py, lines 85–126) modelled at the boundary
of the external PNG reader: `X`, `Y`, the materialized row tuple `pixels`
and the chunk dictionary `info` are what `png.Reader.asDirect` produced.
Missing `planes`/`bitdepth` keys (a KeyError) and unsupported bit depths
are `none`. -/
def png2list (X Y : Nat) (pixels : List (List Nat)) (info : Info) :
    Option DecodeResult :=
  match info.planes with
  | none => none
  | some Z =>
    match info.bitdepth with
    | none => none
    | some bd =>
      match maxcolorsOfBitdepth bd with
      | none => none
      | some maxcolors =>
        let imagedata := pixels
        let list_3d : PixelArray :=
          (List.range Y).map fun y =>
            (List.range X).map fun x =>
              (List.range Z).map fun z =>
                (imagedata.getD y []).getD (x * Z + z) 0
        some ⟨X, Y, Z, maxcolors, list_3d, info⟩

/-- The inner generator `flatten_2d` of `list2png`
(src/pypng/pnglpng.py, lines 177–185): one flat row of `X * Z` samples per
image row, `x` outer, `z` inner.  `X`, `Z`, `Y` are the values captured from
the enclosing scope (`Z` already clamped). -/
def flatten_2d (X Z Y : Nat) (list_3d : PixelArray) : List (List Nat) :=
  (List.range Y).map fun y =>
    (List.range X).bind fun x =>
      (List.range Z).map fun z =>
        ((list_3d.getD y []).getD x []).getD z 0

/-- The metadata overwrite block of `list2png`
(src/pypng/pnglpng.py, lines 156–174), with `Z` already clamped:
force `size` and `planes` from the list shape, delete `palette` and
`background` when present, then derive `alpha` and `greyscale` from `Z`. -/
def overwrite_info (X Y Z : Nat) (info : Info) : Info :=
  let info1 := { info with size := some (X, Y), planes := some Z }
  let info2 := if info1.palette.isSome then { info1 with palette := none } else info1
  let info3 := if info2.background.isSome then { info2 with background := none } else info2
  let info4 := if Z % 2 = 1 then { info3 with alpha := some false }
               else { info3 with alpha := some true }
  if Z < 3 then { info4 with greyscale := some true }
  else { info4 with greyscale := some false }

/-- `list2png` (src/pypng/pnglpng.py, lines 134–192) modelled at the boundary
of the external PNG writer: the result is the metadata record passed to
`png.Writer` together with the row sequence produced by `flatten_2d` and fed
to `writer.write`.  `Y = len(list_3d)`, `X = len(list_3d[0])`,
`Z = min(len(list_3d[0][0]), 4)`; an empty image or empty first row is the
IndexError of `list_3d[0]` / `list_3d[0][0]`, hence `none`. -/
def list2png (list_3d : PixelArray) (info : Info) :
    Option (Info × List (List Nat)) :=
  if list_3d.length = 0 ∨ (list_3d.getD 0 []).length = 0 then none
  else
    let Y := list_3d.length
    let X := (list_3d.getD 0 []).length
    let Z := min ((list_3d.getD 0 []).getD 0 []).length 4
    some (overwrite_info X Y Z info, flatten_2d X Z Y list_3d)

/-- `create_image` (src/pypng/pnglpng.py, lines 199–208). -/
def create_image (X Y Z : Nat) : PixelArray :=
  (List.range Y).map fun _ => (List.range X).map fun _ => (List.range Z).map fun _ => 0

/-- The resolution-and-compression adjustment block of `scale_file_png`
(src/ScaleNxGUI.py, lines 217–238), identical to the one in `FileNx`
(lines 135–155): scale the `physical` record by `size`, defaulting to
`(3780, 3780, true)` when absent, then force `compression` to 9. -/
def scale_file_png_adjust (size : Nat) (info : Info) : Info :=
  let res : Nat × Nat × Bool :=
    match info.physical with
    | some r => r
    | none => (3780, 3780, true)
  let x_pixels_per_unit := size * res.1
  let y_pixels_per_unit := size * res.2.1
  let unit_is_meter := res.2.2
  let info1 := { info with physical := some (x_pixels_per_unit, y_pixels_per_unit, unit_is_meter) }
  { info1 with compression := some 9 }

/-- A filesystem entry as seen by `Path.rglob` in `FolderNx`: only the
suffix drives the dispatch, the stem identifies the file. -/
structure FsFile where
  stem : String
  suffix : String
  deriving Repr, DecidableEq

/-- One unit of batch work submitted by `FolderNx`: the target function
(`scale_file_png` or `scale_file_pnm`) with its `(runningfilename, size, sfx)`
arguments. -/
inductive BatchTask where
  | png (file : FsFile) (size : Nat) (sfx : Bool)
  | pnm (file : FsFile) (size : Nat) (sfx : Bool)
  deriving Repr, DecidableEq

/-- The per-file body of the `FolderNx` loop (src/ScaleNxGUI.py,
lines 306–324): two independent `if` statements, one submitting a
`scale_file_png` task for suffix `.png`, one submitting a `scale_file_pnm`
task for suffix `.ppm` or `.pgm`. -/
def fileTasks (size : Nat) (sfx : Bool) (f : FsFile) : List BatchTask :=
  (if f.suffix = ".png" then [BatchTask.png f size sfx] else []) ++
  (if f.suffix = ".ppm" ∨ f.suffix = ".pgm" then [BatchTask.pnm f size sfx] else [])

/-- The worker pool of `FolderNx`, at the boundary of `multiprocessing.Pool`:
the state is the sequence of submitted tasks. -/
structure Pool where
  submitted : List BatchTask := []
  deriving Repr, DecidableEq

/-- `Pool.apply_async`: submit one task. -/
def Pool.apply_async (p : Pool) (t : BatchTask) : Pool :=
  { submitted := p.submitted ++ [t] }

/-- Modelled from the spec: the `close` + `join` barrier of the external
`multiprocessing.Pool` (not part of this repository) — the driver call
returns only after every submitted task has finished, regardless of each
task's outcome.  The value is the list of tasks that have completed when
`join` returns: all of them. -/
def Pool.close_join (p : Pool) : List BatchTask :=
  p.submitted

/-- The submission loop of `FolderNx` (src/ScaleNxGUI.py, lines 302–325):
walk the traversal order, feeding every task of every file to the pool. -/
def FolderNx_submit (files : List FsFile) (size : Nat) (sfx : Bool) : Pool :=
  files.foldl (fun p f => (fileTasks size sfx f).foldl Pool.apply_async p) {}

/-- `FolderNx` end to end: submit, then `close` + `join`; the tasks completed
when the call returns. -/
def FolderNx_completed (files : List FsFile) (size : Nat) (sfx : Bool) :
    List BatchTask :=
  (FolderNx_submit files size sfx).close_join

/-- The suffixes the batch loop dispatches on (src/ScaleNxGUI.py,
lines 307 and 316). -/
def folderEligibleSuffixes : List String := [".png", ".ppm", ".pgm"]

/-- The suffixes offered by the `FileNx` open dialog's `Supported formats`
filter (src/ScaleNxGUI.py, line 94): `.png .ppm .pgm .pbm`. -/
def fileNxDialogSuffixes : List String := [".png", ".ppm", ".pgm", ".pbm"]

/-- Rectangularity of a pixel array: every row has `X` pixels and every
pixel has `Z` channels. -/
def Rect (list_3d : PixelArray) (X Z : Nat) : Prop :=
  ∀ row ∈ list_3d, row.length = X ∧ ∀ px ∈ row, px.length = Z

instance (list_3d : PixelArray) (X Z : Nat) : Decidable (Rect list_3d X Z) := by
  unfold Rect; infer_instance

/-- Every sample of the array lies in `[0, maxcolors]`. -/
def InRange (list_3d : PixelArray) (maxcolors : Nat) : Prop :=
  ∀ row ∈ list_3d, ∀ px ∈ row, ∀ c ∈ px, c ≤ maxcolors

instance (list_3d : PixelArray) (maxcolors : Nat) : Decidable (InRange list_3d maxcolors) := by
  unfold InRange; infer_instance

/-! ## Access lemmas for the flattened and rebuilt structures -/

lemma getD_map_range {α : Type} (f : Nat → α) {n i : Nat} (h : i < n) (d : α) :
    ((List.range n).map f).getD i d = f i := by
  have hl : i < ((List.range n).map f).length := by simpa using h
  rw [List.getD_eq_getElem _ _ hl]
  simp

lemma length_bind_const {α β : Type} (f : β → List α) (Z : Nat) :
    ∀ L : List β, (∀ b ∈ L, (f b).length = Z) → (L.bind f).length = L.length * Z := by
  intro L
  induction L with
  | nil => intro _; simp
  | cons a t ih =>
    intro hlen
    simp only [List.cons_bind, List.length_append, List.length_cons]
    rw [hlen a (by simp), ih fun b hb => hlen b (by simp [hb])]
    ring

lemma getD_bind_const {α β : Type} (f : β → List α) (Z : Nat) (d : α) :
    ∀ (L : List β) (q z : Nat) (hq : q < L.length),
      (∀ b ∈ L, (f b).length = Z) → z < Z →
      (L.bind f).getD (q * Z + z) d = (f (L.get ⟨q, hq⟩)).getD z d := by
  intro L
  induction L with
  | nil => intro q z hq _ _; exact absurd hq (by simp)
  | cons a t ih =>
    intro q z hq hlen hz
    cases q with
    | zero =>
      simp only [List.cons_bind, Nat.zero_mul, Nat.zero_add, List.get]
      exact List.getD_append _ _ _ _ (by rw [hlen a (by simp)]; exact hz)
    | succ q' =>
      have hfa : (f a).length = Z := hlen a (by simp)
      have hge : (f a).length ≤ (q' + 1) * Z + z := by
        rw [hfa, Nat.succ_mul]; omega
      simp only [List.cons_bind]
      rw [List.getD_append_right _ _ _ _ hge, hfa]
      have harith : (q' + 1) * Z + z - Z = q' * Z + z := by
        rw [Nat.succ_mul]; omega
      rw [harith]
      exact ih q' z (by simpa using hq) (fun b hb => hlen b (by simp [hb])) hz

lemma flatten_2d_getD (A : PixelArray) (X Z Y y : Nat) (hy : y < Y) :
    (flatten_2d X Z Y A).getD y [] =
      (List.range X).bind fun x => (List.range Z).map fun z =>
        ((A.getD y []).getD x []).getD z 0 := by
  unfold flatten_2d
  exact getD_map_range _ hy _

lemma flatten_2d_entry (A : PixelArray) (X Z Y y x z : Nat)
    (hy : y < Y) (hx : x < X) (hz : z < Z) :
    ((flatten_2d X Z Y A).getD y []).getD (x * Z + z) 0 =
      ((A.getD y []).getD x []).getD z 0 := by
  rw [flatten_2d_getD A X Z Y y hy]
  rw [getD_bind_const (fun x => (List.range Z).map fun z => ((A.getD y []).getD x []).getD z 0)
    Z 0 (List.range X) x z (by simpa using hx) (fun b _ => by simp) hz]
  rw [List.get_range]
  exact getD_map_range _ hz _

lemma flatten_2d_row_length (A : PixelArray) (X Z Y y : Nat) (hy : y < Y) :
    ((flatten_2d X Z Y A).getD y []).length = X * Z := by
  rw [flatten_2d_getD A X Z Y y hy]
  rw [length_bind_const _ Z _ fun b _ => by simp]
  simp

lemma Rect.row_length {A : PixelArray} {X Z : Nat} (h : Rect A X Z)
    {y : Nat} (hy : y < A.length) : (A.getD y []).length = X := by
  rw [List.getD_eq_getElem _ _ hy]
  exact (h _ (List.getElem_mem hy)).1

lemma Rect.px_length {A : PixelArray} {X Z : Nat} (h : Rect A X Z)
    {y x : Nat} (hy : y < A.length) (hx : x < X) :
    ((A.getD y []).getD x []).length = Z := by
  have hrow := h _ (List.getElem_mem hy)
  have hx2 : x < (A.getD y []).length := by rw [h.row_length hy]; exact hx
  rw [List.getD_eq_getElem _ _ hy] at hx2 ⊢
  rw [List.getD_eq_getElem _ _ hx2]
  exact hrow.2 _ (List.getElem_mem hx2)

/-! ## Reductions of `overwrite_info`, `list2png`, `png2list` -/

lemma overwrite_info_size (X Y Z : Nat) (i : Info) :
    (overwrite_info X Y Z i).size = some (X, Y) := by
  simp only [overwrite_info]
  split_ifs <;> rfl

lemma overwrite_info_planes (X Y Z : Nat) (i : Info) :
    (overwrite_info X Y Z i).planes = some Z := by
  simp only [overwrite_info]
  split_ifs <;> rfl

lemma overwrite_info_palette (X Y Z : Nat) (i : Info) :
    (overwrite_info X Y Z i).palette = none := by
  simp only [overwrite_info]
  split_ifs with h1 h2 h3 <;>
    simp_all [Option.not_isSome_iff_eq_none]

lemma overwrite_info_background (X Y Z : Nat) (i : Info) :
    (overwrite_info X Y Z i).background = none := by
  simp only [overwrite_info]
  split_ifs with h1 h2 h3 <;>
    simp_all [Option.not_isSome_iff_eq_none]

lemma overwrite_info_alpha (X Y Z : Nat) (i : Info) :
    (overwrite_info X Y Z i).alpha = some (decide (Z % 2 = 0)) := by
  rcases Nat.mod_two_eq_zero_or_one Z with h | h <;>
    simp [overwrite_info, apply_ite Info.alpha, h]

lemma overwrite_info_greyscale (X Y Z : Nat) (i : Info) :
    (overwrite_info X Y Z i).greyscale = some (decide (Z < 3)) := by
  by_cases h : Z < 3 <;> simp [overwrite_info, apply_ite Info.greyscale, h]

lemma overwrite_info_bitdepth (X Y Z : Nat) (i : Info) :
    (overwrite_info X Y Z i).bitdepth = i.bitdepth := by
  simp only [overwrite_info]
  split_ifs <;> rfl

lemma overwrite_info_physical (X Y Z : Nat) (i : Info) :
    (overwrite_info X Y Z i).physical = i.physical := by
  simp only [overwrite_info]
  split_ifs <;> rfl

lemma overwrite_info_compression (X Y Z : Nat) (i : Info) :
    (overwrite_info X Y Z i).compression = i.compression := by
  simp only [overwrite_info]
  split_ifs <;> rfl

lemma overwrite_info_others (X Y Z : Nat) (i : Info) :
    (overwrite_info X Y Z i).others = i.others := by
  simp only [overwrite_info]
  split_ifs <;> rfl

lemma list2png_eq_some (A : PixelArray) (info : Info)
    (h1 : A.length ≠ 0) (h2 : (A.getD 0 []).length ≠ 0) :
    list2png A info = some
      (overwrite_info (A.getD 0 []).length A.length
        (min ((A.getD 0 []).getD 0 []).length 4) info,
       flatten_2d (A.getD 0 []).length
        (min ((A.getD 0 []).getD 0 []).length 4) A.length A) := by
  unfold list2png
  rw [if_neg (by push_neg; exact ⟨h1, h2⟩)]

lemma png2list_eq_some (X Y : Nat) (pixels : List (List Nat)) (info : Info)
    (Z bd mc : Nat) (hp : info.planes = some Z) (hb : info.bitdepth = some bd)
    (hm : maxcolorsOfBitdepth bd = some mc) :
    png2list X Y pixels info = some
      ⟨X, Y, Z, mc,
        (List.range Y).map fun y => (List.range X).map fun x =>
          (List.range Z).map fun z => (pixels.getD y []).getD (x * Z + z) 0,
        info⟩ := by
  simp only [png2list, hp, hb, hm]

/-- Re-partitioning the rows produced by `flatten_2d` rebuilds the original
rectangular array: the codec's decode partition inverts its encode flatten. -/
lemma decode_encode_list (A : PixelArray) (X Z : Nat) (hrect : Rect A X Z) :
    ((List.range A.length).map fun y => (List.range X).map fun x =>
      (List.range Z).map fun z =>
        ((flatten_2d X Z A.length A).getD y []).getD (x * Z + z) 0) = A := by
  apply List.ext_getElem
  · simp
  · intro y hy1 hy2
    simp only [List.getElem_map, List.getElem_range]
    apply List.ext_getElem
    · simpa using (hrect _ (List.getElem_mem hy2)).1.symm
    · intro x hx1 hx2
      simp only [List.getElem_map, List.getElem_range]
      have hxX : x < X := by simpa using hx1
      apply List.ext_getElem
      · have := (hrect _ (List.getElem_mem hy2)).2 _ (List.getElem_mem hx2)
        simpa using this.symm
      · intro z hz1 hz2
        simp only [List.getElem_map, List.getElem_range]
        rw [flatten_2d_entry A X Z A.length y x z hy2 hxX (by simpa using hz1)]
        rw [List.getD_eq_getElem _ _ hy2]
        rw [List.getD_eq_getElem _ _ hx2]
        rw [List.getD_eq_getElem _ _ hz2]

/-! ## Claim theorems -/

/-- C1: for every `Z ∈ {1,2,3,4}`, bit depth `∈ {8,16}`, and rectangular
pixel array with all samples in `[0, maxcolors]`, decoding the rows written
by `list2png` with `png2list` (under the metadata record `list2png` wrote)
yields the original array channel-for-channel in row-major order: the row
partition of `png2list` inverts the row flattening of `flatten_2d`. -/
theorem roundtrip_preserves_pixels (A : PixelArray) (info : Info)
    (X Y Z maxcolors : Nat)
    (hY : A.length = Y) (hY0 : 0 < Y) (hX0 : 0 < X)
    (hrect : Rect A X Z)
    (hZ : Z = 1 ∨ Z = 2 ∨ Z = 3 ∨ Z = 4)
    (hbd : (info.bitdepth = some 8 ∧ maxcolors = 255) ∨
           (info.bitdepth = some 16 ∧ maxcolors = 65535))
    (hrange : InRange A maxcolors) :
    ∃ i' rows res, list2png A info = some (i', rows) ∧
      png2list X Y rows i' = some res ∧ res.list_3d = A := by
  subst hY
  have hA0 : A.length ≠ 0 := by omega
  have hrow0 : (A.getD 0 []).length = X := hrect.row_length (by omega)
  have hrow0ne : (A.getD 0 []).length ≠ 0 := by rw [hrow0]; omega
  have hpx0 : ((A.getD 0 []).getD 0 []).length = Z :=
    hrect.px_length (by omega) (by omega)
  have hmin : min ((A.getD 0 []).getD 0 []).length 4 = Z := by
    rw [hpx0]; rcases hZ with h | h | h | h <;> simp [h]
  have henc := list2png_eq_some A info hA0 hrow0ne
  rw [hmin, hrow0] at henc
  have hplanes : (overwrite_info X A.length Z info).planes = some Z :=
    overwrite_info_planes X A.length Z info
  rcases hbd with ⟨hb, _⟩ | ⟨hb, _⟩
  · have hbd' : (overwrite_info X A.length Z info).bitdepth = some 8 := by
      rw [overwrite_info_bitdepth, hb]
    exact ⟨_, _, _, henc,
      png2list_eq_some X A.length (flatten_2d X Z A.length A) _ Z 8 255
        hplanes hbd' rfl,
      decode_encode_list A X Z hrect⟩
  · have hbd' : (overwrite_info X A.length Z info).bitdepth = some 16 := by
      rw [overwrite_info_bitdepth, hb]
    exact ⟨_, _, _, henc,
      png2list_eq_some X A.length (flatten_2d X Z A.length A) _ Z 16 65535
        hplanes hbd' rfl,
      decode_encode_list A X Z hrect⟩

/-- Witness for C1 at a concrete 1×2×2 8-bit array. -/
theorem roundtrip_preserves_pixels_witness :
    ∃ i' rows res,
      list2png [[[1, 2], [3, 4]]] { bitdepth := some 8 } = some (i', rows) ∧
      png2list 2 1 rows i' = some res ∧ res.list_3d = [[[1, 2], [3, 4]]] :=
  roundtrip_preserves_pixels [[[1, 2], [3, 4]]] { bitdepth := some 8 }
    2 1 2 255 rfl (by decide) (by decide) (by decide)
    (Or.inr (Or.inl rfl)) (Or.inl ⟨rfl, rfl⟩) (by decide)

/-- C8: `png2list` partitions each row's flat channel sequence in
(row-major, channel-minor) order: the sample at row `y`, pixel `x`,
channel `z` of the built array is the element at flat offset `x * Z + z`
of row `y` of the materialized row sequence. -/
theorem png2list_partition_order (X Y : Nat) (pixels : List (List Nat))
    (info : Info) (Z bd mc : Nat)
    (hp : info.planes = some Z) (hb : info.bitdepth = some bd)
    (hm : maxcolorsOfBitdepth bd = some mc)
    (y x z : Nat) (hy : y < Y) (hx : x < X) (hz : z < Z) :
    ∃ res, png2list X Y pixels info = some res ∧
      ((res.list_3d.getD y []).getD x []).getD z 0 =
        (pixels.getD y []).getD (x * Z + z) 0 := by
  refine ⟨_, png2list_eq_some X Y pixels info Z bd mc hp hb hm, ?_⟩
  show ((((List.range Y).map fun y => (List.range X).map fun x =>
      (List.range Z).map fun z =>
        (pixels.getD y []).getD (x * Z + z) 0).getD y []).getD x []).getD z 0 = _
  rw [getD_map_range _ hy, getD_map_range _ hx, getD_map_range _ hz]

/-- Witness for C8 at a concrete 2×2 2-plane row sequence. -/
theorem png2list_partition_order_witness :
    ∃ res,
      png2list 2 2 [[1, 2, 3, 4], [5, 6, 7, 8]]
        { planes := some 2, bitdepth := some 8 } = some res ∧
      ((res.list_3d.getD 1 []).getD 1 []).getD 0 0 =
        ([[1, 2, 3, 4], [5, 6, 7, 8]].getD 1 []).getD (1 * 2 + 0) 0 :=
  png2list_partition_order 2 2 [[1, 2, 3, 4], [5, 6, 7, 8]]
    { planes := some 2, bitdepth := some 8 } 2 8 255 rfl rfl rfl
    1 1 0 (by decide) (by decide) (by decide)

/-- C7: `png2list` derives `maxcolors` from the reported bit depth by the
fixed mapping 1 ↦ 1, 8 ↦ 255, 16 ↦ 65535. -/
theorem png2list_maxcolors_mapping (X Y : Nat) (pixels : List (List Nat))
    (info : Info) (Z : Nat) (hp : info.planes = some Z) :
    (info.bitdepth = some 1 →
      ∃ res, png2list X Y pixels info = some res ∧ res.maxcolors = 1) ∧
    (info.bitdepth = some 8 →
      ∃ res, png2list X Y pixels info = some res ∧ res.maxcolors = 255) ∧
    (info.bitdepth = some 16 →
      ∃ res, png2list X Y pixels info = some res ∧ res.maxcolors = 65535) :=
  ⟨fun hb => ⟨_, png2list_eq_some X Y pixels info Z 1 1 hp hb rfl, rfl⟩,
   fun hb => ⟨_, png2list_eq_some X Y pixels info Z 8 255 hp hb rfl, rfl⟩,
   fun hb => ⟨_, png2list_eq_some X Y pixels info Z 16 65535 hp hb rfl, rfl⟩⟩

/-- Witness for C7 at a concrete decode. -/
theorem png2list_maxcolors_mapping_witness :
    (({ planes := some 3, bitdepth := some 16 } : Info).bitdepth = some 1 →
      ∃ res, png2list 1 1 [[0, 0, 0]] { planes := some 3, bitdepth := some 16 } =
        some res ∧ res.maxcolors = 1) ∧
    (({ planes := some 3, bitdepth := some 16 } : Info).bitdepth = some 8 →
      ∃ res, png2list 1 1 [[0, 0, 0]] { planes := some 3, bitdepth := some 16 } =
        some res ∧ res.maxcolors = 255) ∧
    (({ planes := some 3, bitdepth := some 16 } : Info).bitdepth = some 16 →
      ∃ res, png2list 1 1 [[0, 0, 0]] { planes := some 3, bitdepth := some 16 } =
        some res ∧ res.maxcolors = 65535) :=
  png2list_maxcolors_mapping 1 1 [[0, 0, 0]]
    { planes := some 3, bitdepth := some 16 } 3 rfl

lemma list2png_fst_eq (A : PixelArray) (info i' : Info) (rows : List (List Nat))
    (h : list2png A info = some (i', rows)) :
    i' = overwrite_info (A.getD 0 []).length A.length
      (min ((A.getD 0 []).getD 0 []).length 4) info := by
  rw [list2png] at h
  split at h
  · exact absurd h (by simp)
  · simp only [Option.some.injEq, Prod.mk.injEq] at h
    exact h.1.symm

/-- C2: on every encode of a non-empty rectangular array, the written
`size`, `planes`, `alpha`, `greyscale` are derived solely from the array's
shape — `size = (X, Y)`, `planes = min Z 4`, `alpha ↔ planes even`,
`greyscale ↔ planes < 3` — so two encodes of the same array under different
stale metadata agree on all four derived fields. -/
theorem list2png_derived_metadata (A : PixelArray) (X Y Z : Nat)
    (hY : A.length = Y) (hY0 : 0 < Y) (hX0 : 0 < X) (hrect : Rect A X Z) :
    (∀ info : Info, ∃ i' rows, list2png A info = some (i', rows) ∧
        i'.size = some (X, Y) ∧ i'.planes = some (min Z 4) ∧
        i'.alpha = some (decide (min Z 4 % 2 = 0)) ∧
        i'.greyscale = some (decide (min Z 4 < 3))) ∧
    (∀ (info₁ info₂ : Info) (i₁ i₂ : Info) (rows₁ rows₂ : List (List Nat)),
        list2png A info₁ = some (i₁, rows₁) →
        list2png A info₂ = some (i₂, rows₂) →
        i₁.size = i₂.size ∧ i₁.planes = i₂.planes ∧
        i₁.alpha = i₂.alpha ∧ i₁.greyscale = i₂.greyscale) := by
  subst hY
  have hA0 : A.length ≠ 0 := by omega
  have hrow0 : (A.getD 0 []).length = X := hrect.row_length (by omega)
  have hrow0ne : (A.getD 0 []).length ≠ 0 := by rw [hrow0]; omega
  have hpx0 : ((A.getD 0 []).getD 0 []).length = Z :=
    hrect.px_length (by omega) (by omega)
  have key : ∀ (info i' : Info) (rows : List (List Nat)),
      list2png A info = some (i', rows) →
      i'.size = some (X, A.length) ∧ i'.planes = some (min Z 4) ∧
      i'.alpha = some (decide (min Z 4 % 2 = 0)) ∧
      i'.greyscale = some (decide (min Z 4 < 3)) := by
    intro info i' rows h
    rw [list2png_fst_eq A info i' rows h, hrow0, hpx0]
    exact ⟨overwrite_info_size _ _ _ _, overwrite_info_planes _ _ _ _,
      overwrite_info_alpha _ _ _ _, overwrite_info_greyscale _ _ _ _⟩
  constructor
  · intro info
    refine ⟨_, _, list2png_eq_some A info hA0 hrow0ne, ?_⟩
    exact key info _ _ (list2png_eq_some A info hA0 hrow0ne)
  · intro info₁ info₂ i₁ i₂ rows₁ rows₂ h₁ h₂
    obtain ⟨e1, e2, e3, e4⟩ := key info₁ i₁ rows₁ h₁
    obtain ⟨f1, f2, f3, f4⟩ := key info₂ i₂ rows₂ h₂
    exact ⟨e1.trans f1.symm, e2.trans f2.symm, e3.trans f3.symm, e4.trans f4.symm⟩

/-- Witness for C2 at a concrete 1×1×3 array and two different stale
metadata records. -/
theorem list2png_derived_metadata_witness :
    (∀ info : Info, ∃ i' rows, list2png [[[9, 9, 9]]] info = some (i', rows) ∧
        i'.size = some (1, 1) ∧ i'.planes = some (min 3 4) ∧
        i'.alpha = some (decide (min 3 4 % 2 = 0)) ∧
        i'.greyscale = some (decide (min 3 4 < 3))) ∧
    (∀ (info₁ info₂ : Info) (i₁ i₂ : Info) (rows₁ rows₂ : List (List Nat)),
        list2png [[[9, 9, 9]]] info₁ = some (i₁, rows₁) →
        list2png [[[9, 9, 9]]] info₂ = some (i₂, rows₂) →
        i₁.size = i₂.size ∧ i₁.planes = i₂.planes ∧
        i₁.alpha = i₂.alpha ∧ i₁.greyscale = i₂.greyscale) :=
  list2png_derived_metadata [[[9, 9, 9]]] 1 1 3 rfl (by decide) (by decide)
    (by decide)

/-- C5: with more than 4 channels per pixel, `list2png` clamps the written
plane count to 4 and silently drops every channel beyond the 4th: each
written row holds `X * 4` samples, sample `(y, x, z)` for `z < 4` is the
original channel `z`, and decoding the written rows reports `Z = 4`. -/
theorem channel_clamp_drops_extra (A : PixelArray) (info : Info)
    (X Y Z bd : Nat)
    (hY : A.length = Y) (hY0 : 0 < Y) (hX0 : 0 < X) (hrect : Rect A X Z)
    (hZ : 4 < Z) (hb : info.bitdepth = some bd) (hbd : bd = 8 ∨ bd = 16) :
    ∃ i' rows, list2png A info = some (i', rows) ∧
      i'.planes = some 4 ∧
      (∀ y, y < Y → (rows.getD y []).length = X * 4) ∧
      (∀ y x z, y < Y → x < X → z < 4 →
        (rows.getD y []).getD (x * 4 + z) 0 =
          ((A.getD y []).getD x []).getD z 0) ∧
      ∃ res, png2list X Y rows i' = some res ∧ res.Z = 4 := by
  subst hY
  have hA0 : A.length ≠ 0 := by omega
  have hrow0 : (A.getD 0 []).length = X := hrect.row_length (by omega)
  have hrow0ne : (A.getD 0 []).length ≠ 0 := by rw [hrow0]; omega
  have hpx0 : ((A.getD 0 []).getD 0 []).length = Z :=
    hrect.px_length (by omega) (by omega)
  have hmin : min ((A.getD 0 []).getD 0 []).length 4 = 4 := by
    rw [hpx0]; omega
  have henc := list2png_eq_some A info hA0 hrow0ne
  rw [hmin, hrow0] at henc
  have hplanes : (overwrite_info X A.length 4 info).planes = some 4 :=
    overwrite_info_planes X A.length 4 info
  have hbd' : (overwrite_info X A.length 4 info).bitdepth = some bd := by
    rw [overwrite_info_bitdepth, hb]
  have hmc : ∃ mc, maxcolorsOfBitdepth bd = some mc := by
    rcases hbd with h | h <;> subst h
    · exact ⟨255, rfl⟩
    · exact ⟨65535, rfl⟩
  obtain ⟨mc, hmc⟩ := hmc
  refine ⟨_, _, henc, hplanes, ?_, ?_, ?_⟩
  · intro y hy
    exact flatten_2d_row_length A X 4 A.length y hy
  · intro y x z hy hx hz
    exact flatten_2d_entry A X 4 A.length y x z hy hx hz
  · exact ⟨_, png2list_eq_some X A.length (flatten_2d X 4 A.length A) _ 4 bd mc
      hplanes hbd' hmc, rfl⟩

/-- Witness for C5 at a concrete 1×2×5 array. -/
theorem channel_clamp_drops_extra_witness :
    ∃ i' rows,
      list2png [[[1, 2, 3, 4, 5], [6, 7, 8, 9, 10]]] { bitdepth := some 8 } =
        some (i', rows) ∧
      i'.planes = some 4 ∧
      (∀ y, y < 1 → (rows.getD y []).length = 2 * 4) ∧
      (∀ y x z, y < 1 → x < 2 → z < 4 →
        (rows.getD y []).getD (x * 4 + z) 0 =
          (([[[1, 2, 3, 4, 5], [6, 7, 8, 9, 10]]].getD y []).getD x []).getD z 0) ∧
      ∃ res, png2list 2 1 rows i' = some res ∧ res.Z = 4 :=
  channel_clamp_drops_extra [[[1, 2, 3, 4, 5], [6, 7, 8, 9, 10]]]
    { bitdepth := some 8 } 2 1 5 8 rfl (by decide) (by decide) (by decide)
    (by decide) rfl (Or.inl rfl)

/-- C6: whatever the input metadata and array, the metadata record handed to
the PNG writer by a successful `list2png` carries neither a `palette` nor a
`background` entry. -/
theorem palette_background_removed (A : PixelArray) (info i' : Info)
    (rows : List (List Nat)) (h : list2png A info = some (i', rows)) :
    i'.palette = none ∧ i'.background = none := by
  rw [list2png_fst_eq A info i' rows h]
  exact ⟨overwrite_info_palette _ _ _ _, overwrite_info_background _ _ _ _⟩

/-- Witness for C6: a metadata record carrying both a palette and a
background loses both on encode. -/
theorem palette_background_removed_witness :
    ∃ i' rows,
      list2png [[[7]]]
        { palette := some [(1, 2, 3)], background := some [0],
          bitdepth := some 8 } = some (i', rows) ∧
      i'.palette = none ∧ i'.background = none := by
  refine ⟨_, _, rfl, ?_⟩
  exact palette_background_removed [[[7]]]
    { palette := some [(1, 2, 3)], background := some [0], bitdepth := some 8 }
    _ _ rfl

/-- C10: the metadata record after `list2png` is the caller's record with
exactly the documented changes: `size`, `planes`, `alpha`, `greyscale` set
to the shape-derived values, `palette` and `background` removed, and every
other key (`bitdepth`, `physical`, `compression`, pass-through ancillary
keys) left unchanged. -/
theorem list2png_info_frame (A : PixelArray) (info i' : Info)
    (rows : List (List Nat)) (h : list2png A info = some (i', rows)) :
    i'.size = some ((A.getD 0 []).length, A.length) ∧
    i'.planes = some (min ((A.getD 0 []).getD 0 []).length 4) ∧
    i'.alpha = some (decide (min ((A.getD 0 []).getD 0 []).length 4 % 2 = 0)) ∧
    i'.greyscale = some (decide (min ((A.getD 0 []).getD 0 []).length 4 < 3)) ∧
    i'.palette = none ∧ i'.background = none ∧
    i'.bitdepth = info.bitdepth ∧ i'.physical = info.physical ∧
    i'.compression = info.compression ∧ i'.others = info.others := by
  rw [list2png_fst_eq A info i' rows h]
  exact ⟨overwrite_info_size _ _ _ _, overwrite_info_planes _ _ _ _,
    overwrite_info_alpha _ _ _ _, overwrite_info_greyscale _ _ _ _,
    overwrite_info_palette _ _ _ _, overwrite_info_background _ _ _ _,
    overwrite_info_bitdepth _ _ _ _, overwrite_info_physical _ _ _ _,
    overwrite_info_compression _ _ _ _, overwrite_info_others _ _ _ _⟩

/-- Witness for C10 at a concrete encode with a fully populated record. -/
theorem list2png_info_frame_witness :
    ∃ i' rows,
      list2png [[[5, 6]]]
        { size := some (99, 99), planes := some 7, bitdepth := some 16,
          alpha := some false, greyscale := some false,
          palette := some [(1, 1, 1)], background := some [2],
          physical := some (100, 200, true), compression := some 1,
          others := [("gamma", "0.45")] } = some (i', rows) ∧
      i'.size = some (1, 1) ∧ i'.planes = some 2 ∧
      i'.alpha = some true ∧ i'.greyscale = some true ∧
      i'.palette = none ∧ i'.background = none ∧
      i'.bitdepth = some 16 ∧ i'.physical = some (100, 200, true) ∧
      i'.compression = some 1 ∧ i'.others = [("gamma", "0.45")] := by
  refine ⟨_, _, rfl, ?_⟩
  have := list2png_info_frame [[[5, 6]]]
    { size := some (99, 99), planes := some 7, bitdepth := some 16,
      alpha := some false, greyscale := some false,
      palette := some [(1, 1, 1)], background := some [2],
      physical := some (100, 200, true), compression := some 1,
      others := [("gamma", "0.45")] } _ _ rfl
  simpa using this

/-- C3: the driver's metadata adjustment between decode and encode scales a
present physical-resolution record `(x0, y0, u)` to `(N * x0, N * y0, u)`,
replaces an absent one by `(N * 3780, N * 3780, true)`, forces the
compression level to 9 whatever its input value, and therefore always
leaves an explicit physical-resolution record. -/
theorem resolution_compression_policy (size : Nat) (info : Info)
    (hN : size = 2 ∨ size = 3) :
    (∀ x0 y0 u, info.physical = some (x0, y0, u) →
      (scale_file_png_adjust size info).physical =
        some (size * x0, size * y0, u)) ∧
    (info.physical = none →
      (scale_file_png_adjust size info).physical =
        some (size * 3780, size * 3780, true)) ∧
    (scale_file_png_adjust size info).compression = some 9 ∧
    ((scale_file_png_adjust size info).physical).isSome = true := by
  refine ⟨?_, ?_, ?_, ?_⟩
  · intro x0 y0 u h
    simp [scale_file_png_adjust, h]
  · intro h
    simp [scale_file_png_adjust, h]
  · cases h : info.physical <;> simp [scale_file_png_adjust, h]
  · cases h : info.physical <;> simp [scale_file_png_adjust, h]

/-- Witness for C3 at factor 2, once with and once without a physical
record. -/
theorem resolution_compression_policy_witness :
    (scale_file_png_adjust 2 { physical := some (3780, 2834, true) }).physical =
      some (7560, 5668, true) ∧
    (scale_file_png_adjust 2 { bitdepth := some 8 }).physical =
      some (7560, 7560, true) ∧
    (scale_file_png_adjust 2 { compression := some 1 }).compression = some 9 :=
  ⟨(resolution_compression_policy 2 { physical := some (3780, 2834, true) }
      (Or.inl rfl)).1 3780 2834 true rfl,
   (resolution_compression_policy 2 { bitdepth := some 8 }
      (Or.inl rfl)).2.1 rfl,
   (resolution_compression_policy 2 { compression := some 1 }
      (Or.inl rfl)).2.2.1⟩

lemma foldl_apply_async (ts : List BatchTask) :
    ∀ p : Pool, (ts.foldl Pool.apply_async p).submitted = p.submitted ++ ts := by
  induction ts with
  | nil => intro p; simp
  | cons a t ih => intro p; simp [ih, Pool.apply_async]

lemma FolderNx_submit_eq (files : List FsFile) (size : Nat) (sfx : Bool) :
    (FolderNx_submit files size sfx).submitted =
      files.bind (fileTasks size sfx) := by
  unfold FolderNx_submit
  suffices h : ∀ p : Pool,
      (files.foldl (fun p f => (fileTasks size sfx f).foldl Pool.apply_async p)
        p).submitted = p.submitted ++ files.bind (fileTasks size sfx) by
    simpa using h {}
  induction files with
  | nil => intro p; simp
  | cons f t ih =>
    intro p
    simp [foldl_apply_async, ih, List.cons_bind]

lemma bind_fileTasks_eq (files : List FsFile) (size : Nat) (sfx : Bool) :
    files.bind (fileTasks size sfx) =
      (files.filter fun f => decide (f.suffix ∈ folderEligibleSuffixes)).map
        fun f => if f.suffix = ".png" then BatchTask.png f size sfx
                 else BatchTask.pnm f size sfx := by
  induction files with
  | nil => rfl
  | cons f t ih =>
    simp only [List.cons_bind, List.filter_cons]
    by_cases h1 : f.suffix = ".png"
    · have hne : ¬(f.suffix = ".ppm" ∨ f.suffix = ".pgm") := by
        rw [h1]; decide
      have hd : (".png" : String) ∈ folderEligibleSuffixes := by decide
      simp [fileTasks, h1, hne, hd, ih]
    · by_cases h2 : f.suffix = ".ppm" ∨ f.suffix = ".pgm"
      · rcases h2 with h | h
        · have hd : (".ppm" : String) ∈ folderEligibleSuffixes := by decide
          have hne : ¬(".ppm" : String) = ".png" := by decide
          rw [h] at h1
          simp [fileTasks, h, h1, hd, hne, ih]
        · have hd : (".pgm" : String) ∈ folderEligibleSuffixes := by decide
          have hne : ¬(".pgm" : String) = ".png" := by decide
          rw [h] at h1
          simp [fileTasks, h, h1, hd, hne, ih]
      · have hm : ¬f.suffix ∈ folderEligibleSuffixes := by
          simp only [folderEligibleSuffixes, List.mem_cons, List.not_mem_nil,
            or_false]
          push_neg
          exact ⟨h1, fun hc => h2 (Or.inl hc), fun hc => h2 (Or.inr hc)⟩
        simp [fileTasks, h1, h2, hm, ih]

/-- C4: over any traversal, the batch loop submits exactly one task per
file whose suffix the loop dispatches on (`.png` to the PNG path, `.ppm` or
`.pgm` to the PNM path), submits nothing for any other file, and the call
returns only after the pool's close-join barrier, when every submitted task
has completed. -/
theorem batch_completeness (files : List FsFile) (size : Nat) (sfx : Bool)
    (K : Nat)
    (hK : (files.filter fun f =>
      decide (f.suffix ∈ folderEligibleSuffixes)).length = K) :
    FolderNx_completed files size sfx =
      (FolderNx_submit files size sfx).submitted ∧
    (FolderNx_submit files size sfx).submitted.length = K ∧
    (FolderNx_submit files size sfx).submitted =
      (files.filter fun f => decide (f.suffix ∈ folderEligibleSuffixes)).map
        (fun f => if f.suffix = ".png" then BatchTask.png f size sfx
                  else BatchTask.pnm f size sfx) ∧
    ∀ f ∈ files, ¬f.suffix ∈ folderEligibleSuffixes →
      fileTasks size sfx f = [] := by
  have hsub := (FolderNx_submit_eq files size sfx).trans
    (bind_fileTasks_eq files size sfx)
  refine ⟨rfl, ?_, hsub, ?_⟩
  · rw [hsub, List.length_map, hK]
  · intro f _ hne
    simp only [folderEligibleSuffixes, List.mem_cons,
      List.mem_singleton, List.not_mem_nil] at hne
    push_neg at hne
    have h1 : ¬f.suffix = ".png" := by tauto
    have h2 : ¬(f.suffix = ".ppm" ∨ f.suffix = ".pgm") := by tauto
    simp [fileTasks, h1, h2]

/-- Witness for C4: a traversal with two eligible files (one of each
family) and one ineligible file submits exactly two tasks, correctly
routed, and all of them are complete when the call returns. -/
theorem batch_completeness_witness :
    FolderNx_completed [⟨"a", ".png"⟩, ⟨"b", ".ppm"⟩, ⟨"c", ".txt"⟩] 3 false =
      (FolderNx_submit [⟨"a", ".png"⟩, ⟨"b", ".ppm"⟩, ⟨"c", ".txt"⟩] 3
        false).submitted ∧
    (FolderNx_submit [⟨"a", ".png"⟩, ⟨"b", ".ppm"⟩, ⟨"c", ".txt"⟩] 3
      false).submitted.length = 2 ∧
    (FolderNx_submit [⟨"a", ".png"⟩, ⟨"b", ".ppm"⟩, ⟨"c", ".txt"⟩] 3
      false).submitted =
      ([⟨"a", ".png"⟩, ⟨"b", ".ppm"⟩, ⟨"c", ".txt"⟩].filter fun f =>
        decide (f.suffix ∈ folderEligibleSuffixes)).map
        (fun f => if f.suffix = ".png" then BatchTask.png f 3 false
                  else BatchTask.pnm f 3 false) ∧
    ∀ f ∈ [⟨"a", ".png"⟩, ⟨"b", ".ppm"⟩, ⟨"c", ".txt"⟩],
      ¬f.suffix ∈ folderEligibleSuffixes → fileTasks 3 false f = [] :=
  batch_completeness [⟨"a", ".png"⟩, ⟨"b", ".ppm"⟩, ⟨"c", ".txt"⟩] 3 false 2
    (by decide)

/-- C9: the single-file open dialog lists `.png .ppm .pgm .pbm` as
supported, while the batch loop dispatches only on `.png`, `.ppm`, `.pgm`:
a `.pbm` file in a batch tree never yields a task and is left untouched. -/
theorem pbm_dialog_vs_batch :
    ".pbm" ∈ fileNxDialogSuffixes ∧
    ".pbm" ∉ folderEligibleSuffixes ∧
    (∀ (size : Nat) (sfx : Bool) (f : FsFile),
      f.suffix ∉ folderEligibleSuffixes → fileTasks size sfx f = []) ∧
    (∀ (size : Nat) (sfx : Bool) (f : FsFile),
      f.suffix = ".pbm" → fileTasks size sfx f = []) := by
  refine ⟨by decide, by decide, ?_, ?_⟩
  · intro size sfx f hne
    simp only [folderEligibleSuffixes, List.mem_cons,
      List.mem_singleton, List.not_mem_nil] at hne
    push_neg at hne
    have h1 : ¬f.suffix = ".png" := by tauto
    have h2 : ¬(f.suffix = ".ppm" ∨ f.suffix = ".pgm") := by tauto
    simp [fileTasks, h1, h2]
  · intro size sfx f h
    simp [fileTasks, h]

/-- Witness for C9: a concrete `.pbm` file gets no task from the batch
loop. -/
theorem pbm_dialog_vs_batch_witness :
    fileTasks 2 false ⟨"image", ".pbm"⟩ = [] :=
  pbm_dialog_vs_batch.2.2.2 2 false ⟨"image", ".pbm"⟩ rfl

end PixelArtScale
